import Mathlib

/-!
Verification of the cascading OHLCV acquisition engine of `scraper_cascade.py`.

The development shallowly embeds the pieces of the source the claims are
about:

* the SQLite `ohlcv` table (`PRIMARY KEY (ticker, date, row_index)`) as an
  association list keyed by that triple, with `INSERT OR REPLACE` as
  `upsertRow` (`store_ohlcv`);
* the coverage evaluator `get_ohlcv_date_range` / `years_of_data`
  (SQL `MIN`/`MAX`/`COUNT` over primary-index rows, span divided by 365.25);
* the retry layer `_http_get` as a loop over an attempt-indexed outcome
  environment, recording the number of attempts and the backoff sleeps;
* the source adapters `fetch_byma`, `fetch_analisistecnico`, `fetch_yahoo`
  over parsed provider responses (chart-style parallel arrays whose OHLC
  entries may be null);
* the per-instrument cascade `cascade_download` and the orchestration loop
  body of `download_all`, instrumented with the list of sources actually
  invoked (the network calls made) and the audit-log appends;
* the registry reconciler's per-record classification and upsert from
  `load_tickers_from_csv`.

Modelling conventions: calendar dates are represented by integer day
numbers (ISO `YYYY-MM-DD` strings compare lexicographically exactly as
their days do, and `datetime.fromtimestamp(ts)` is day-monotone in `ts`,
modelled as floor division by 86400); wall-clock timestamps such as
`downloaded_at` and the audit `started_at`/`finished_at` columns are
modelled as the fact of having been written; floats are modelled as
rationals.  Provider responses whose parallel arrays have mismatched
lengths raise `IndexError` in the source (a per-source failure) and are
not part of the modelled environments, so out-of-range reads use list
defaults.  `KeyboardInterrupt` and store-unavailability exceptions are
not modelled: none of the embedded operations raise, so the
`except Exception` arm of `download_all` is unreachable here.
-/

-- ─── Bar store (`ohlcv` table, `store_ohlcv`) ────────────────────────────────

/-- Primary key of the `ohlcv` table: `(ticker, date, row_index)`. -/
structure Key where
  ticker : String
  date : Int
  rowIndex : Nat
deriving DecidableEq

/-- The non-key columns of an `ohlcv` row.  The OHLC fields are `Option`
because the adapters forward whatever the provider sent, and providers may
report null for a non-trading day; `volume` is an integer after `int(...)`
conversion in the adapters. -/
structure BarVal where
  timestamp : Int
  open_ : Option ℚ
  high : Option ℚ
  low : Option ℚ
  close : Option ℚ
  volume : Int
  dataSource : String
deriving DecidableEq

/-- One row tuple as built by the adapters:
`(ticker, date, timestamp, open, high, low, close, volume, row_index, source)`. -/
structure Row where
  ticker : String
  date : Int
  timestamp : Int
  open_ : Option ℚ
  high : Option ℚ
  low : Option ℚ
  close : Option ℚ
  volume : Int
  rowIndex : Nat
  dataSource : String
deriving DecidableEq

def rowKey (r : Row) : Key := ⟨r.ticker, r.date, r.rowIndex⟩

def rowVal (r : Row) : BarVal :=
  ⟨r.timestamp, r.open_, r.high, r.low, r.close, r.volume, r.dataSource⟩

/-- The `ohlcv` table, as the list of its rows. -/
abbrev Store := List (Key × BarVal)

def keys (s : Store) : List Key := s.map (·.1)

def containsKey (s : Store) (k : Key) : Bool := s.any fun kv => decide (kv.1 = k)

def lookup (s : Store) (k : Key) : Option BarVal :=
  (s.find? fun kv => decide (kv.1 = k)).map (·.2)

def countKey (s : Store) (k : Key) : Nat :=
  (s.filter fun kv => decide (kv.1 = k)).length

/-- `INSERT OR REPLACE` of a single row: the row holding the conflicting
primary key — the table invariant gives at most one — is replaced in
place, and a row with a fresh key is inserted.  (Row order inside a SQL
table is not observable; keeping the replaced row's position is equivalent
at the query level.) -/
def upsertRow : Store → Row → Store
  | [], r => [(rowKey r, rowVal r)]
  | kv :: rest, r =>
    if kv.1 = rowKey r then (rowKey r, rowVal r) :: rest else kv :: upsertRow rest r

def upsertList (s : Store) (rows : List Row) : Store := rows.foldl upsertRow s

/-- `store_ohlcv`: executemany `INSERT OR REPLACE`, returning the new store
and the cursor rowcount (one per processed row; `0` and no write for an
empty list). -/
def storeOhlcv (s : Store) (rows : List Row) : Store × Nat :=
  if rows = [] then (s, 0) else (upsertList s rows, rows.length)

/-- The value of the last row in the batch carrying a given key, if any:
what an `INSERT OR REPLACE` batch leaves at that key. -/
def lastWrite : List Row → Key → Option BarVal
  | [], _ => none
  | r :: rest, k =>
    match lastWrite rest k with
    | some v => some v
    | none => if rowKey r = k then some (rowVal r) else none

-- ─── Coverage evaluator (`get_ohlcv_date_range`, `years_of_data`) ───────────

/-- SQL `MIN(date)` over a list of dates (`NULL`, i.e. `none`, when empty). -/
def minD : List Int → Option Int
  | [] => none
  | x :: xs => match minD xs with
    | none => some x
    | some m => some (min x m)

/-- SQL `MAX(date)` over a list of dates. -/
def maxD : List Int → Option Int
  | [] => none
  | x :: xs => match maxD xs with
    | none => some x
    | some m => some (max x m)

/-- The dates of the rows with `row_index = 0` for a ticker
(`WHERE ticker = ? AND row_index = 0`). -/
def primaryDates (s : Store) (tk : String) : List Int :=
  (s.filter fun kv => decide (kv.1.ticker = tk ∧ kv.1.rowIndex = 0)).map (·.1.date)

/-- `get_ohlcv_date_range`: `(MIN(date), MAX(date), COUNT(*))` over the
primary-index rows of the ticker. -/
def dateRange (s : Store) (tk : String) : Option Int × Option Int × Nat :=
  (minD (primaryDates s tk), maxD (primaryDates s tk), (primaryDates s tk).length)

/-- `years_of_data`: `(max_date - min_date).days / 365.25`, `0.0` when either
bound is missing.  Since `365.25 = 1461/4`, the quotient is written as the
integer ratio `4*(d2 - d1) / 1461` so that the kernel can evaluate it on
concrete inputs; `yearsOfData_eq_div` states the equality with the literal
formula. -/
def yearsOfData : Option Int → Option Int → ℚ
  | some d1, some d2 => Rat.divInt (4 * (d2 - d1)) 1461
  | _, _ => 0

/-- Coverage of a ticker computed from the store, as the cascade computes it. -/
def yearsCov (s : Store) (tk : String) : ℚ :=
  yearsOfData (dateRange s tk).1 (dateRange s tk).2.1

-- ─── HTTP retry layer (`_http_get`) ──────────────────────────────────────────

def MAX_RETRIES : Nat := 3

def RETRY_BACKOFF : List Nat := [3, 10, 30]

/-- A parsed TradingView-UDF style chart payload (ByMA and analisistecnico):
status field `s` and parallel arrays of timestamps and OHLCV values, the
OHLC entries possibly null. -/
structure ChartResponse where
  s : String
  t : List Int
  o : List (Option ℚ)
  h : List (Option ℚ)
  l : List (Option ℚ)
  c : List (Option ℚ)
  v : List Int
deriving DecidableEq

/-- `chart.result[i].indicators.quote[0]` of a Yahoo chart payload. -/
structure YahooQuote where
  open_ : List (Option ℚ)
  high : List (Option ℚ)
  low : List (Option ℚ)
  close : List (Option ℚ)
  volume : List (Option Int)
deriving DecidableEq

structure YahooResult where
  timestamp : List Int
  quote : YahooQuote
deriving DecidableEq

/-- `data["chart"]` of a Yahoo response: an error flag and the result list. -/
structure YahooChart where
  err : Bool
  result : List YahooResult
deriving DecidableEq

/-- What `resp.read()` followed by `json.loads` can yield: empty (falsy)
bytes, bytes that fail to parse, or one of the two recognised payload
shapes.  A payload of the other provider's shape simply misses the keys
the adapter looks for. -/
inductive ByteData where
  | empty
  | invalid
  | chart (d : ChartResponse)
  | yahoo (d : YahooChart)
deriving DecidableEq

/-- Outcome of a single `urlopen` attempt: a body, an `HTTPError` with a
status code, or a `URLError`/`TimeoutError`/`ConnectionError`. -/
inductive AttemptOutcome where
  | success (b : ByteData)
  | httpError (code : Nat)
  | netError
deriving DecidableEq

/-- The error `_http_get` re-raises after exhausting retries. -/
inductive LastError where
  | httpError (code : Nat)
  | netError
deriving DecidableEq

/-- Observable behaviour of one `_http_get` call: its returned value or
raised error, how many attempts were made, and the backoff sleeps
performed. -/
structure HttpTrace where
  outcome : Except LastError (Option ByteData)
  attempts : Nat
  sleeps : List Nat

/-- The retry loop of `_http_get`, one step per remaining attempt.
HTTP 400/404 return `None` immediately; other HTTP errors and network
errors are remembered and retried after a backoff sleep (no sleep after
the final attempt); after the loop the last error, if any, is raised. -/
def httpGetAux (env : Nat → AttemptOutcome) :
    Nat → Nat → Option LastError → List Nat → HttpTrace
  | 0, attempt, lastError, sleeps =>
    match lastError with
    | some e => ⟨.error e, attempt, sleeps⟩
    | none => ⟨.ok none, attempt, sleeps⟩
  | fuel + 1, attempt, lastError, sleeps =>
    match env attempt with
    | .success b => ⟨.ok (some b), attempt + 1, sleeps⟩
    | .httpError code =>
      if code = 400 ∨ code = 404 then ⟨.ok none, attempt + 1, sleeps⟩
      else
        httpGetAux env fuel (attempt + 1) (some (.httpError code))
          (if attempt < MAX_RETRIES - 1 then sleeps ++ [RETRY_BACKOFF.getD attempt 0] else sleeps)
    | .netError =>
      httpGetAux env fuel (attempt + 1) (some .netError)
        (if attempt < MAX_RETRIES - 1 then sleeps ++ [RETRY_BACKOFF.getD attempt 0] else sleeps)

/-- `_http_get` against an attempt-indexed environment. -/
def httpGet (env : Nat → AttemptOutcome) : HttpTrace :=
  httpGetAux env MAX_RETRIES 0 none []

/-- `unix_to_date`: the calendar day of a unix timestamp, as a day number. -/
def unixToDate (ts : Int) : Int := ts / 86400

-- ─── Source adapters ─────────────────────────────────────────────────────────

def SOURCE_BYMA : String := "byma"

def SOURCE_AT : String := "analisistecnico"

def SOURCE_YAHOO : String := "yahoo"

/-- The row tuples `fetch_byma` builds from a chart payload with `s = "ok"`:
one per timestamp, OHLC forwarded as-is (nulls included), `row_index = 0`. -/
def bymaRows (tk : String) (d : ChartResponse) : List Row :=
  (List.range d.t.length).map fun i =>
    ⟨tk, unixToDate (d.t.getD i 0), d.t.getD i 0,
     d.o.getD i none, d.h.getD i none, d.l.getD i none, d.c.getD i none,
     d.v.getD i 0, 0, SOURCE_BYMA⟩

/-- `fetch_byma`: HTTP GET, then `[]` on missing/empty/unparseable body or a
status other than `"ok"`, else the rows.  A raise from `_http_get`
propagates. -/
def fetchByma (tk : String) (env : Nat → AttemptOutcome) : Except LastError (List Row) :=
  match (httpGet env).outcome with
  | .error e => .error e
  | .ok none => .ok []
  | .ok (some .empty) => .ok []
  | .ok (some .invalid) => .ok []
  | .ok (some (.yahoo _)) => .ok []
  | .ok (some (.chart d)) => if d.s = "ok" then .ok (bymaRows tk d) else .ok []

/-- The row-building loop of `fetch_analisistecnico`: as `bymaRows`, except a
per-date counter assigns `row_index` so that a repeated calendar date gets
index 1, 2, … instead of colliding. -/
def atRowsGo (tk : String) (d : ChartResponse) (cnt : Int → Nat) : List Nat → List Row
  | [] => []
  | i :: is =>
    let dateStr := unixToDate (d.t.getD i 0)
    let rowIdx := cnt dateStr
    ⟨tk, dateStr, d.t.getD i 0,
     d.o.getD i none, d.h.getD i none, d.l.getD i none, d.c.getD i none,
     d.v.getD i 0, rowIdx, SOURCE_AT⟩ ::
      atRowsGo tk d (fun ds => if ds = dateStr then rowIdx + 1 else cnt ds) is

def atRows (tk : String) (d : ChartResponse) : List Row :=
  atRowsGo tk d (fun _ => 0) (List.range d.t.length)

/-- `fetch_analisistecnico`: same shape as `fetch_byma` with the duplicate-date
row construction. -/
def fetchAnalisistecnico (tk : String) (env : Nat → AttemptOutcome) :
    Except LastError (List Row) :=
  match (httpGet env).outcome with
  | .error e => .error e
  | .ok none => .ok []
  | .ok (some .empty) => .ok []
  | .ok (some .invalid) => .ok []
  | .ok (some (.yahoo _)) => .ok []
  | .ok (some (.chart d)) => if d.s = "ok" then .ok (atRows tk d) else .ok []

/-- The row loop of `fetch_yahoo`: per index, out-of-range OHLC reads default
to null and volume to 0; a day whose open, high, low or close is null is
skipped (`continue`); a null volume becomes 0 (`int(v or 0)`). -/
def yahooRows (tk : String) (r : YahooResult) : List Row :=
  (List.range r.timestamp.length).filterMap fun i =>
    let o := r.quote.open_.getD i none
    let h := r.quote.high.getD i none
    let l := r.quote.low.getD i none
    let c := r.quote.close.getD i none
    let v := r.quote.volume.getD i (some 0)
    if o = none ∨ h = none ∨ l = none ∨ c = none then none
    else some ⟨tk, unixToDate (r.timestamp.getD i 0), r.timestamp.getD i 0,
               o, h, l, c, v.getD 0, 0, SOURCE_YAHOO⟩

/-- The parse-and-extract stage of `fetch_yahoo`, applied to the HTTP
outcome: `[]` on missing/empty/unparseable body, a truthy `chart.error`,
an empty `chart.result` list, or an empty timestamp array, else the rows
of `chart.result[0]`. -/
def yahooFromBytes (tk : String) :
    Except LastError (Option ByteData) → Except LastError (List Row)
  | .error e => .error e
  | .ok none => .ok []
  | .ok (some .empty) => .ok []
  | .ok (some .invalid) => .ok []
  | .ok (some (.chart _)) => .ok []
  | .ok (some (.yahoo d)) =>
    if d.err then .ok []
    else match d.result with
    | [] => .ok []
    | r0 :: _ => if r0.timestamp = [] then .ok [] else .ok (yahooRows tk r0)

/-- `fetch_yahoo`: the first HTTP call is wrapped in try/except with a
fallback call on a relaxed SSL context (`env2`); the rest is
`yahooFromBytes`. -/
def fetchYahoo (tk : String) (env env2 : Nat → AttemptOutcome) :
    Except LastError (List Row) :=
  yahooFromBytes tk
    (match (httpGet env).outcome with
     | .ok b => .ok b
     | .error _ => (httpGet env2).outcome)

/-- The row list an adapter handed to the cascade, `[]` if it raised. -/
def okRows : Except LastError (List Row) → List Row
  | .ok rows => rows
  | .error _ => []

/-- Every OHLC field of the row is non-null. -/
def rowNonNull (r : Row) : Bool :=
  r.open_.isSome && r.high.isSome && r.low.isSome && r.close.isSome

-- ─── Cascade (`SOURCES`, `cascade_download`) ─────────────────────────────────

/-- The fixed, statically ordered source list. -/
def SOURCES : List String := ["byma", "iol", "yahoo", "analisistecnico"]

/-- What one `fetch_fn(ticker)` call did: raised (`.error`) or returned a row
list.  At the cascade level the adapters are opaque: `fetch_iol` itself
catches its own errors, the HTTP-based ones may raise after retries. -/
abbrev FetchResult := Except Unit (List Row)

/-- Result of `cascade_download`, instrumented with `invoked`: the sources
actually fetched, i.e. the network calls made on behalf of the ticker. -/
structure CascadeResult where
  store : Store
  totalStored : Nat
  primarySource : Option String
  sourcesUsed : List (String × Nat)
  invoked : List String
deriving DecidableEq

/-- The source loop of `cascade_download`: skip configured-off sources;
before each source re-check coverage and stop when `count > 0` and
coverage meets the target; fetch, treating a raise like an empty result
(log and continue); on non-empty rows upsert them, add the source to the
trail, and record it as primary if none is recorded yet. -/
def cascadeGo (tk : String) (minY : ℚ) (skip : List String)
    (env : String → FetchResult) :
    List String → Store → Nat → Option String → List (String × Nat) → List String →
      CascadeResult
  | [], s, tot, prim, used, inv => ⟨s, tot, prim, used, inv⟩
  | name :: rest, s, tot, prim, used, inv =>
    if name ∈ skip then cascadeGo tk minY skip env rest s tot prim used inv
    else if 0 < (dateRange s tk).2.2 ∧ minY ≤ yearsCov s tk then
      ⟨s, tot, prim, used, inv⟩
    else
      match env name with
      | .error _ => cascadeGo tk minY skip env rest s tot prim used (inv ++ [name])
      | .ok rows =>
        if rows = [] then cascadeGo tk minY skip env rest s tot prim used (inv ++ [name])
        else
          cascadeGo tk minY skip env rest (storeOhlcv s rows).1 (tot + (storeOhlcv s rows).2)
            (match prim with | none => some name | some q => some q)
            (used ++ [(name, (storeOhlcv s rows).2)]) (inv ++ [name])

/-- `cascade_download` for one ticker. -/
def cascadeDownload (tk : String) (minY : ℚ) (skip : List String)
    (env : String → FetchResult) (s : Store) : CascadeResult :=
  cascadeGo tk minY skip env SOURCES s 0 none [] []

/-- Did the fetch return a non-empty row list? -/
def fetchNonempty : FetchResult → Bool
  | .ok rows => !rows.isEmpty
  | .error _ => false

-- ─── Orchestration (`download_all`, `mark_downloaded`, `log_download`) ───────

/-- A `tickers` table row (`id, name, ticker, trading_type, settlement_type,
enabled, description, downloaded_at, bars_count, data_source`), with
`downloadedAt` recording whether the timestamp column has been written. -/
structure TickerRow where
  id : Nat
  name : String
  ticker : String
  tradingType : String
  settlementType : String
  enabled : Bool
  description : String
  downloadedAt : Bool
  barsCount : Nat
  dataSource : Option String
deriving DecidableEq

abbrev TickerDb := List TickerRow

/-- `mark_downloaded`: `UPDATE tickers SET downloaded_at, bars_count,
data_source WHERE ticker = ?`. -/
def markDownloaded (db : TickerDb) (tk : String) (count : Nat) (src : Option String) :
    TickerDb :=
  db.map fun row =>
    if row.ticker = tk then
      { row with downloadedAt := true, barsCount := count, dataSource := src }
    else row

/-- One `download_log` insert (`started_at`/`finished_at` not modelled). -/
structure AuditEntry where
  ticker : String
  status : String
  barsFound : Nat
  barsStored : Nat
  dataSource : Option String
deriving DecidableEq

/-- The counters of `CascadeStats`.  `belowTarget` is the source's
`stats.partial` counter, renamed because its name is a Lean keyword;
`errors` counts the unreachable exception arm and stays 0 here. -/
structure CascadeStats where
  success : Nat
  belowTarget : Nat
  empties : Nat
  errors : Nat
  skipped : Nat
  totalBars : Nat
deriving DecidableEq

/-- State threaded through `download_all`: the two tables, the audit log,
the stats, and (instrumentation) the `(ticker, source)` network calls
made so far. -/
structure DAState where
  store : Store
  tickers : TickerDb
  audit : List AuditEntry
  stats : CascadeStats
  calls : List (String × String)
deriving DecidableEq

/-- The outcome classes of a run, as `download_all` classifies the final
coverage: no rows at all, coverage at or above the target, or some rows
below the target; `skipped` is the pre-cascade early exit. -/
inductive RunStatus where
  | sufficient
  | belowTarget
  | empty
  | skipped
deriving DecidableEq

/-- The final-coverage classification of `download_all` (lines 537-559):
`empty` when no rows, else `sufficient`/`belowTarget` against the target. -/
def classify (count : Nat) (yrs minY : ℚ) : RunStatus :=
  if count = 0 then .empty else if minY ≤ yrs then .sufficient else .belowTarget

/-- The body of the `download_all` loop for one `(ticker, trading_type)`
pair: skip when (not forcing) existing primary-index bars already meet the
target; otherwise run the cascade, recompute coverage, and either record
an `empty` audit entry (no metadata update) or mark the ticker downloaded,
record an `ok` audit entry, and bump the success/partial counters. -/
def processOne (minY : ℚ) (force : Bool) (skip : List String)
    (env : String → String → FetchResult) (st : DAState) (tt : String × String) :
    DAState :=
  let tk := tt.1
  if ¬ force = true ∧ 0 < (dateRange st.store tk).2.2 ∧ minY ≤ yearsCov st.store tk then
    { st with stats := { st.stats with skipped := st.stats.skipped + 1 } }
  else
    let r := cascadeDownload tk minY skip (fun n => env n tk) st.store
    let st1 : DAState :=
      { st with store := r.store, calls := st.calls ++ r.invoked.map fun n => (tk, n) }
    let fc := (dateRange r.store tk).2.2
    let fy := yearsCov r.store tk
    if fc = 0 then
      { st1 with
        audit := st1.audit ++ [⟨tk, "empty", 0, 0, some "cascade"⟩],
        stats := { st1.stats with empties := st1.stats.empties + 1 } }
    else
      let st2 : DAState :=
        { st1 with
          tickers := markDownloaded st1.tickers tk fc r.primarySource,
          audit := st1.audit ++ [⟨tk, "ok", r.totalStored, fc, some "cascade"⟩] }
      if minY ≤ fy then
        { st2 with
          stats := { st2.stats with
            success := st2.stats.success + 1,
            totalBars := st2.stats.totalBars + r.totalStored } }
      else
        { st2 with
          stats := { st2.stats with
            belowTarget := st2.stats.belowTarget + 1,
            totalBars := st2.stats.totalBars + r.totalStored } }

/-- `download_all`: the loop over the ticker list. -/
def downloadAll (minY : ℚ) (force : Bool) (skip : List String)
    (env : String → String → FetchResult) (tks : List (String × String))
    (st : DAState) : DAState :=
  tks.foldl (processOne minY force skip env) st

/-- Every ticker handed to `download_all` lands in exactly one stats
bucket; their sum counts the tickers processed. -/
def processedCount (st : DAState) : Nat :=
  st.stats.success + st.stats.belowTarget + st.stats.empties + st.stats.errors +
    st.stats.skipped

-- ─── Registry reconciler (`load_tickers_from_csv`) ───────────────────────────

/-- One incoming CSV record after stripping/parsing (the auto-assigned id is
passed separately). -/
structure IncomingRec where
  name : String
  ticker : String
  tradingType : String
  settlementType : String
  enabled : Bool
  description : String
deriving DecidableEq

/-- The classification of one incoming record against the pre-sync snapshot. -/
inductive SyncClass where
  | isNew
  | updated (changes : List String)
  | disabled
  | unchanged
deriving DecidableEq

/-- The full field diff, in the order the source appends the names. -/
def changesList (old : TickerRow) (r : IncomingRec) : List String :=
  (if old.name = r.name then [] else ["name"])
    ++ (if old.tradingType = r.tradingType then [] else ["trading_type"])
    ++ (if old.enabled = r.enabled then [] else ["enabled"])
    ++ (if old.description = r.description then [] else ["description"])

/-- The per-record classification of `load_tickers_from_csv`: a missing
ticker is new; an enabled flag dropping from true to false short-circuits
to `disabled` (discarding the diff collected so far); otherwise a
non-empty diff is `updated` and an empty one `unchanged`.
`settlement_type` is never diffed. -/
def classifyRow (old? : Option TickerRow) (r : IncomingRec) : SyncClass :=
  match old? with
  | none => .isNew
  | some old =>
    let c1 : List String := if old.name = r.name then [] else ["name"]
    let c2 := c1 ++ (if old.tradingType = r.tradingType then [] else ["trading_type"])
    if old.enabled = true ∧ r.enabled = false then .disabled
    else
      let c3 := c2 ++ (if old.enabled = r.enabled then [] else ["enabled"])
      let c4 := c3 ++ (if old.description = r.description then [] else ["description"])
      if c4 = [] then .unchanged else .updated c4

/-- The field names `UPDATED` reports; other classes report none. -/
def reportedChanges : SyncClass → List String
  | .updated l => l
  | _ => []

/-- The `ON CONFLICT(ticker) DO UPDATE` field overwrite (id, download
metadata untouched). -/
def applyCsvUpdate (row : TickerRow) (r : IncomingRec) : TickerRow :=
  { row with
    name := r.name, tradingType := r.tradingType,
    settlementType := r.settlementType, enabled := r.enabled,
    description := r.description }

/-- A freshly inserted `tickers` row for a new record. -/
def freshTickerRow (rid : Nat) (r : IncomingRec) : TickerRow :=
  ⟨rid, r.name, r.ticker, r.tradingType, r.settlementType, r.enabled,
   r.description, false, 0, none⟩

/-- The reconciler's `INSERT ... ON CONFLICT(ticker) DO UPDATE`. -/
def upsertTicker (db : TickerDb) (rid : Nat) (r : IncomingRec) : TickerDb :=
  if db.any fun row => decide (row.ticker = r.ticker) then
    db.map fun row => if row.ticker = r.ticker then applyCsvUpdate row r else row
  else db ++ [freshTickerRow rid r]

def lookupTicker (db : TickerDb) (tk : String) : Option TickerRow :=
  db.find? fun row => decide (row.ticker = tk)

-- ─── Concrete inputs for counterexamples and witnesses ───────────────────────

/-- An empty orchestration state. -/
def st0 : DAState := ⟨[], [], [], ⟨0, 0, 0, 0, 0, 0⟩, []⟩

/-- A fetch environment in which every source returns no data. -/
def envEmpty : String → String → FetchResult := fun _ _ => .ok []

/-- A single stored primary-index bar for ticker `"A"` at day 0. -/
def storeA : Store := [(⟨"A", 0, 0⟩, ⟨0, some 1, some 1, some 1, some 1, 0, "byma"⟩)]

/-- An orchestration state holding just `storeA`. -/
def stA : DAState := ⟨storeA, [], [], ⟨0, 0, 0, 0, 0, 0⟩, []⟩

/-- A not-yet-downloaded `tickers` row for `"GGAL"`. -/
def rowGGAL : TickerRow :=
  ⟨1, "Grupo Financiero Galicia", "GGAL", "STOCK", "", true, "", false, 0, none⟩

/-- An orchestration state that registers `"GGAL"` but stores no bars. -/
def stGGAL : DAState := ⟨[], [rowGGAL], [], ⟨0, 0, 0, 0, 0, 0⟩, []⟩

/-- A chart payload with status ok whose single day has a null open. -/
def nullOpenChart : ChartResponse :=
  ⟨"ok", [86400], [none], [some 1], [some 1], [some 1], [0]⟩

/-- The network environment that serves `nullOpenChart` on every attempt. -/
def nullOpenEnv : Nat → AttemptOutcome := fun _ => .success (.chart nullOpenChart)

/-- A chart payload whose status says no data. -/
def noDataChart : ChartResponse := ⟨"no_data", [], [], [], [], [], []⟩

/-- Two bars sharing `(ticker, date, row_index)` with different closes, and a
third on the same date with a different `row_index`. -/
def barK0a : Row := ⟨"A", 10, 864000, some 1, some 2, some 1, some 2, 5, 0, "byma"⟩

def barK0b : Row := ⟨"A", 10, 864000, some 1, some 3, some 1, some 3, 7, 0, "yahoo"⟩

def barK1 : Row := ⟨"A", 10, 864000, some 1, some 4, some 1, some 4, 9, 1, "analisistecnico"⟩

/-- An attempt environment answering HTTP 403 (a 4xx that is neither 400,
404 nor the 429 rate-limit signal) on every attempt. -/
def env403 : Nat → AttemptOutcome := fun _ => .httpError 403

/-- An attempt environment answering HTTP 404 on every attempt. -/
def env404 : Nat → AttemptOutcome := fun _ => .httpError 404

/-- A per-source fetch environment in which every source raises. -/
def envErrA : String → FetchResult := fun _ => .error ()

/-- A per-source fetch environment in which every source returns no bars. -/
def envOkA : String → FetchResult := fun _ => .ok []

/-- The pre-sync snapshot row and an incoming record that both renames and
disables the instrument. -/
def oldGGAL : TickerRow :=
  ⟨1, "Grupo Financiero Galicia", "GGAL", "STOCK", "", true, "", false, 0, none⟩

def recGGAL : IncomingRec := ⟨"Galicia", "GGAL", "STOCK", "", false, ""⟩

-- ─── Theorems ────────────────────────────────────────────────────────────────

/-- `yearsOfData` computes the literal spec formula
`(max_date - min_date) / 365.25`. -/
theorem yearsOfData_eq_div (d1 d2 : Int) :
    yearsOfData (some d1) (some d2) = ((d2 - d1 : ℤ) : ℚ) / (365.25 : ℚ) := by
  have h : (365.25 : ℚ) = 1461 / 4 := by norm_num
  rw [yearsOfData, Rat.divInt_eq_div, h]
  push_cast
  field_simp
  ring

theorem containsKey_iff {s : Store} {k : Key} :
    containsKey s k = true ↔ k ∈ keys s := by
  simp [containsKey, keys, List.any_eq_true]

theorem keys_cons (kv : Key × BarVal) (s : Store) :
    keys (kv :: s) = kv.1 :: keys s := rfl

theorem lookup_cons {kv : Key × BarVal} {s : Store} {k : Key} :
    lookup (kv :: s) k = if kv.1 = k then some kv.2 else lookup s k := by
  by_cases h : kv.1 = k <;> simp [lookup, List.find?, h]

theorem lookup_upsertRow (s : Store) (r : Row) (k : Key) :
    lookup (upsertRow s r) k =
      if k = rowKey r then some (rowVal r) else lookup s k := by
  induction s with
  | nil =>
    by_cases h : k = rowKey r
    · simp [upsertRow, lookup, List.find?, h]
    · simp [upsertRow, lookup, List.find?, h,
        show ¬ rowKey r = k from fun he => h he.symm]
  | cons kv rest ih =>
    by_cases h1 : kv.1 = rowKey r
    · rw [upsertRow, if_pos h1]
      by_cases h2 : k = rowKey r
      · simp [lookup_cons, h2]
      · rw [lookup_cons, if_neg (fun he => h2 he.symm), if_neg h2, lookup_cons,
          h1, if_neg (fun he => h2 he.symm)]
    · rw [upsertRow, if_neg h1]
      by_cases h2 : kv.1 = k
      · have h3 : ¬ k = rowKey r := fun he => h1 (h2.trans he)
        rw [lookup_cons, if_pos h2, if_neg h3, lookup_cons, if_pos h2]
      · rw [lookup_cons, if_neg h2, ih, lookup_cons, if_neg h2]

theorem keys_upsertRow (s : Store) (r : Row) :
    keys (upsertRow s r) =
      if containsKey s (rowKey r) then keys s else keys s ++ [rowKey r] := by
  induction s with
  | nil => simp [upsertRow, keys, containsKey]
  | cons kv rest ih =>
    by_cases h1 : kv.1 = rowKey r
    · rw [upsertRow, if_pos h1]
      have hc : containsKey (kv :: rest) (rowKey r) = true := by
        simp [containsKey, List.any_cons, h1]
      rw [if_pos hc, keys_cons, keys_cons, h1]
    · rw [upsertRow, if_neg h1]
      have hc : containsKey (kv :: rest) (rowKey r) = containsKey rest (rowKey r) := by
        simp [containsKey, List.any_cons, h1]
      by_cases h2 : containsKey rest (rowKey r) = true
      · rw [hc, if_pos h2, keys_cons, keys_cons, ih, if_pos h2]
      · rw [hc, if_neg h2, keys_cons, keys_cons, ih, if_neg h2]
        rfl

theorem containsKey_upsertRow_self (s : Store) (r : Row) :
    containsKey (upsertRow s r) (rowKey r) = true := by
  rw [containsKey_iff, keys_upsertRow]
  by_cases h : containsKey s (rowKey r) = true
  · rw [if_pos h]; exact containsKey_iff.mp h
  · rw [if_neg h]; simp

theorem containsKey_upsertRow_mono (s : Store) (r : Row) (k : Key)
    (h : containsKey s k = true) : containsKey (upsertRow s r) k = true := by
  rw [containsKey_iff, keys_upsertRow]
  by_cases hc : containsKey s (rowKey r) = true
  · rw [if_pos hc]; exact containsKey_iff.mp h
  · rw [if_neg hc]; exact List.mem_append_left _ (containsKey_iff.mp h)

theorem nodup_keys_upsertRow (s : Store) (r : Row)
    (h : (keys s).Nodup) : (keys (upsertRow s r)).Nodup := by
  rw [keys_upsertRow]
  by_cases hc : containsKey s (rowKey r) = true
  · rw [if_pos hc]; exact h
  · rw [if_neg hc]
    have : rowKey r ∉ keys s := fun hm => hc (containsKey_iff.mpr hm)
    simp [List.nodup_append, h, this]

theorem lookup_upsertList (rows : List Row) (s : Store) (k : Key) :
    lookup (upsertList s rows) k =
      match lastWrite rows k with
      | some v => some v
      | none => lookup s k := by
  induction rows generalizing s with
  | nil => simp [upsertList, lastWrite]
  | cons r rest ih =>
    show lookup (upsertList (upsertRow s r) rest) k = _
    rw [ih, lastWrite]
    cases hlw : lastWrite rest k with
    | some v => simp
    | none =>
      simp only
      rw [lookup_upsertRow]
      by_cases h : rowKey r = k
      · rw [if_pos h.symm, if_pos h]
      · rw [if_neg (fun he => h he.symm), if_neg h]

theorem containsKey_upsertList_mono (rows : List Row) (s : Store) (k : Key)
    (h : containsKey s k = true) : containsKey (upsertList s rows) k = true := by
  induction rows generalizing s with
  | nil => exact h
  | cons r rest ih => exact ih _ (containsKey_upsertRow_mono s r k h)

theorem containsKey_upsertList_of_mem (rows : List Row) (s : Store) (r : Row)
    (h : r ∈ rows) : containsKey (upsertList s rows) (rowKey r) = true := by
  induction rows generalizing s with
  | nil => cases h
  | cons r0 rest ih =>
    rcases List.mem_cons.mp h with h0 | h0
    · subst h0
      exact containsKey_upsertList_mono rest _ _ (containsKey_upsertRow_self s r)
    · exact ih _ h0

theorem keys_upsertList_stable (rows : List Row) (t : Store)
    (h : ∀ r ∈ rows, containsKey t (rowKey r) = true) :
    keys (upsertList t rows) = keys t := by
  induction rows generalizing t with
  | nil => rfl
  | cons r rest ih =>
    show keys (upsertList (upsertRow t r) rest) = keys t
    rw [ih _ fun r2 h2 =>
      containsKey_upsertRow_mono t r (rowKey r2) (h r2 (List.mem_cons_of_mem _ h2))]
    rw [keys_upsertRow, if_pos (h r (List.mem_cons_self _ _))]

theorem nodup_keys_upsertList (rows : List Row) (s : Store)
    (h : (keys s).Nodup) : (keys (upsertList s rows)).Nodup := by
  induction rows generalizing s with
  | nil => exact h
  | cons r rest ih => exact ih _ (nodup_keys_upsertRow s r h)

theorem lookup_eq_none_of_not_mem {s : Store} {k : Key} (h : k ∉ keys s) :
    lookup s k = none := by
  induction s with
  | nil => rfl
  | cons kv rest ih =>
    rw [lookup_cons, if_neg (fun he => h (by simp [keys, he]))]
    exact ih fun hm => h (by simp [keys] at hm ⊢; exact Or.inr hm)

theorem store_ext (s : Store) : ∀ t : Store, (keys s).Nodup → keys s = keys t →
    (∀ k, lookup s k = lookup t k) → s = t := by
  induction s with
  | nil =>
    intro t _ hk _
    cases t with
    | nil => rfl
    | cons kv rest => simp [keys] at hk
  | cons kv rest ih =>
    intro t hnd hk hl
    cases t with
    | nil => simp [keys] at hk
    | cons kv2 rest2 =>
      rw [keys_cons, keys_cons] at hk
      simp only [List.cons.injEq] at hk
      obtain ⟨hk1, hk2⟩ := hk
      have hv : kv.2 = kv2.2 := by
        have := hl kv.1
        rw [lookup_cons, if_pos rfl, lookup_cons, if_pos hk1.symm] at this
        exact Option.some.inj this
      have hnd2 : (keys rest).Nodup := (List.nodup_cons.mp hnd).2
      have hni : kv.1 ∉ keys rest := (List.nodup_cons.mp hnd).1
      have hrest : rest = rest2 := by
        refine ih rest2 hnd2 hk2 fun k => ?_
        by_cases hek : k = kv.1
        · subst hek
          rw [lookup_eq_none_of_not_mem hni,
            lookup_eq_none_of_not_mem (by rw [← hk2]; exact hni)]
        · have := hl k
          rw [lookup_cons, if_neg (fun he => hek he.symm), lookup_cons,
            if_neg (by rw [← hk1]; exact fun he => hek he.symm)] at this
          exact this
      calc kv :: rest = (kv.1, kv.2) :: rest := by rw [Prod.mk.eta]
        _ = (kv2.1, kv2.2) :: rest2 := by rw [hk1, hv, hrest]
        _ = kv2 :: rest2 := by rw [Prod.mk.eta]

theorem countKey_cons (kv : Key × BarVal) (s : Store) (k : Key) :
    countKey (kv :: s) k = (if kv.1 = k then 1 else 0) + countKey s k := by
  by_cases h : kv.1 = k <;> simp [countKey, List.filter_cons, h, Nat.add_comm]

theorem countKey_of_nodup (s : Store) (k : Key) (hnd : (keys s).Nodup) :
    countKey s k = if containsKey s k then 1 else 0 := by
  induction s with
  | nil => simp [countKey, containsKey]
  | cons kv rest ih =>
    rw [keys_cons, List.nodup_cons] at hnd
    rw [countKey_cons, ih hnd.2]
    by_cases h : kv.1 = k
    · have hck : containsKey (kv :: rest) k = true := by
        simp [containsKey, List.any_cons, h]
      have hnr : containsKey rest k = false := by
        rw [← h]
        by_cases hc : containsKey rest kv.1 = true
        · exact absurd (containsKey_iff.mp hc) hnd.1
        · simpa using hc
      rw [hck, hnr, if_pos h, if_pos rfl]
      simp
    · have hck : containsKey (kv :: rest) k = containsKey rest k := by
        simp [containsKey, List.any_cons, h]
      rw [hck, if_neg h, Nat.zero_add]

/-- Claim C4: feeding the store two bars with the same `(ticker, date,
row_index)` key but different values leaves exactly one row for that key,
holding the second write's values; two bars equal except for `row_index`
land in two distinct rows, each retrievable; and replaying any batch a
second time leaves the store literally unchanged. -/
theorem c4_upsert_semantics (s : Store) (hnd : (keys s).Nodup) :
    (∀ r1 r2 : Row, rowKey r1 = rowKey r2 →
      countKey (storeOhlcv s [r1, r2]).1 (rowKey r2) = 1 ∧
      lookup (storeOhlcv s [r1, r2]).1 (rowKey r2) = some (rowVal r2)) ∧
    (∀ r1 r2 : Row, r1.ticker = r2.ticker → r1.date = r2.date →
        ¬ r1.rowIndex = r2.rowIndex →
      countKey (storeOhlcv s [r1, r2]).1 (rowKey r1) = 1 ∧
      countKey (storeOhlcv s [r1, r2]).1 (rowKey r2) = 1 ∧
      lookup (storeOhlcv s [r1, r2]).1 (rowKey r1) = some (rowVal r1) ∧
      lookup (storeOhlcv s [r1, r2]).1 (rowKey r2) = some (rowVal r2)) ∧
    (∀ rows : List Row,
      (storeOhlcv (storeOhlcv s rows).1 rows).1 = (storeOhlcv s rows).1) := by
  have hpair : ∀ r1 r2 : Row,
      (storeOhlcv s [r1, r2]).1 = upsertRow (upsertRow s r1) r2 := by
    intro r1 r2; simp [storeOhlcv, upsertList, List.foldl]
  have hnd2 : ∀ r1 r2 : Row, (keys (upsertRow (upsertRow s r1) r2)).Nodup :=
    fun r1 r2 => nodup_keys_upsertRow _ _ (nodup_keys_upsertRow _ _ hnd)
  refine ⟨?_, ?_, ?_⟩
  · intro r1 r2 _
    rw [hpair]
    constructor
    · rw [countKey_of_nodup _ _ (hnd2 r1 r2), containsKey_upsertRow_self, if_pos rfl]
    · rw [lookup_upsertRow, if_pos rfl]
  · intro r1 r2 htk hdt hidx
    have hne : ¬ rowKey r1 = rowKey r2 := by
      intro h
      exact hidx (congrArg Key.rowIndex h)
    rw [hpair]
    refine ⟨?_, ?_, ?_, ?_⟩
    · rw [countKey_of_nodup _ _ (hnd2 r1 r2),
        containsKey_upsertRow_mono _ _ _ (containsKey_upsertRow_self s r1), if_pos rfl]
    · rw [countKey_of_nodup _ _ (hnd2 r1 r2), containsKey_upsertRow_self, if_pos rfl]
    · rw [lookup_upsertRow, if_neg hne, lookup_upsertRow, if_pos rfl]
    · rw [lookup_upsertRow, if_pos rfl]
  · intro rows
    by_cases hrows : rows = []
    · subst hrows; rfl
    · have h1 : (storeOhlcv s rows).1 = upsertList s rows := by
        rw [storeOhlcv, if_neg hrows]
      have h2 : (storeOhlcv (storeOhlcv s rows).1 rows).1 =
          upsertList (upsertList s rows) rows := by
        rw [h1, storeOhlcv, if_neg hrows]
      rw [h2, h1]
      refine store_ext _ _ (nodup_keys_upsertList _ _ (nodup_keys_upsertList _ _ hnd))
        ?_ fun k => ?_
      · exact keys_upsertList_stable rows _ fun r hr =>
          containsKey_upsertList_of_mem rows s r hr
      · rw [lookup_upsertList, lookup_upsertList]
        cases lastWrite rows k with
        | some v => rfl
        | none => rfl

/-- Witness for C4 at concrete bars: two same-key writes keep one row with
the second value, a distinct `row_index` keeps its own row, and a replayed
batch changes nothing. -/
theorem c4_witness :
    ((keys ([] : Store)).Nodup ∧ rowKey barK0a = rowKey barK0b ∧
      barK0a.ticker = barK1.ticker ∧ barK0a.date = barK1.date ∧
      ¬ barK0a.rowIndex = barK1.rowIndex) ∧
    countKey (storeOhlcv [] [barK0a, barK0b]).1 (rowKey barK0b) = 1 ∧
    lookup (storeOhlcv [] [barK0a, barK0b]).1 (rowKey barK0b) = some (rowVal barK0b) ∧
    countKey (storeOhlcv [] [barK0a, barK1]).1 (rowKey barK0a) = 1 ∧
    countKey (storeOhlcv [] [barK0a, barK1]).1 (rowKey barK1) = 1 ∧
    (storeOhlcv (storeOhlcv [] [barK0a, barK0b]).1 [barK0a, barK0b]).1 =
      (storeOhlcv [] [barK0a, barK0b]).1 :=
  ⟨⟨by decide, by decide, by decide, by decide, by decide⟩,
   ((c4_upsert_semantics [] (by decide)).1 barK0a barK0b (by decide)).1,
   ((c4_upsert_semantics [] (by decide)).1 barK0a barK0b (by decide)).2,
   ((c4_upsert_semantics [] (by decide)).2.1 barK0a barK1 (by decide) (by decide)
     (by decide)).1,
   ((c4_upsert_semantics [] (by decide)).2.1 barK0a barK1 (by decide) (by decide)
     (by decide)).2.1,
   (c4_upsert_semantics [] (by decide)).2.2 [barK0a, barK0b]⟩

theorem minD_eq_none {l : List Int} : minD l = none ↔ l = [] := by
  cases l with
  | nil => simp [minD]
  | cons x xs =>
    cases h : minD xs <;> simp [minD, h]

theorem maxD_eq_none {l : List Int} : maxD l = none ↔ l = [] := by
  cases l with
  | nil => simp [maxD]
  | cons x xs =>
    cases h : maxD xs <;> simp [maxD, h]

theorem minD_mem : ∀ {l : List Int} {m : Int}, minD l = some m → m ∈ l := by
  intro l
  induction l with
  | nil => intro m h; cases h
  | cons x xs ih =>
    intro m h
    cases hx : minD xs with
    | none =>
      rw [minD, hx] at h
      simp at h
      simp [h]
    | some m0 =>
      rw [minD, hx] at h
      simp at h
      rcases min_cases x m0 with ⟨heq, _⟩ | ⟨heq, _⟩
      · rw [← h, heq]; simp
      · rw [← h, heq]
        exact List.mem_cons_of_mem _ (ih hx)

theorem maxD_mem : ∀ {l : List Int} {m : Int}, maxD l = some m → m ∈ l := by
  intro l
  induction l with
  | nil => intro m h; cases h
  | cons x xs ih =>
    intro m h
    cases hx : maxD xs with
    | none =>
      rw [maxD, hx] at h
      simp at h
      simp [h]
    | some m0 =>
      rw [maxD, hx] at h
      simp at h
      rcases max_cases x m0 with ⟨heq, _⟩ | ⟨heq, _⟩
      · rw [← h, heq]; simp
      · rw [← h, heq]
        exact List.mem_cons_of_mem _ (ih hx)

theorem minD_le : ∀ {l : List Int} {m : Int}, minD l = some m → ∀ x ∈ l, m ≤ x := by
  intro l
  induction l with
  | nil => intro m h; cases h
  | cons y ys ih =>
    intro m h x hx
    cases hy : minD ys with
    | none =>
      rw [minD, hy] at h
      simp at h
      rw [minD_eq_none.mp hy] at hx
      simp at hx
      rw [← h, hx]
    | some m0 =>
      rw [minD, hy] at h
      simp at h
      rcases List.mem_cons.mp hx with h2 | h2
      · rw [← h, h2]; exact min_le_left _ _
      · rw [← h]
        exact le_trans (min_le_right _ _) (ih hy x h2)

theorem maxD_ge : ∀ {l : List Int} {m : Int}, maxD l = some m → ∀ x ∈ l, x ≤ m := by
  intro l
  induction l with
  | nil => intro m h; cases h
  | cons y ys ih =>
    intro m h x hx
    cases hy : maxD ys with
    | none =>
      rw [maxD, hy] at h
      simp at h
      rw [maxD_eq_none.mp hy] at hx
      simp at hx
      rw [← h, hx]
    | some m0 =>
      rw [maxD, hy] at h
      simp at h
      rcases List.mem_cons.mp hx with h2 | h2
      · rw [← h, h2]; exact le_max_left _ _
      · rw [← h]
        exact le_trans (ih hy x h2) (le_max_right _ _)

theorem yearsOfData_list_nonneg (l : List Int) :
    0 ≤ yearsOfData (minD l) (maxD l) := by
  cases hm : minD l with
  | none => simp [minD_eq_none.mp hm, maxD, minD, yearsOfData]
  | some m =>
    cases hM : maxD l with
    | none =>
      rw [maxD_eq_none.mp hM] at hm
      cases hm
    | some M =>
      have hle : m ≤ M := maxD_ge hM m (minD_mem hm)
      rw [yearsOfData_eq_div]
      exact div_nonneg (by exact_mod_cast sub_nonneg.mpr hle) (by norm_num)

theorem years_mono (l e : List Int) :
    yearsOfData (minD l) (maxD l) ≤ yearsOfData (minD (l ++ e)) (maxD (l ++ e)) := by
  cases hm : minD l with
  | none =>
    rw [minD_eq_none.mp hm]
    simpa [minD, maxD, yearsOfData] using yearsOfData_list_nonneg e
  | some m =>
    cases hM : maxD l with
    | none =>
      rw [maxD_eq_none.mp hM] at hm
      cases hm
    | some M =>
      have hne : ¬ (l ++ e) = [] := by
        intro h
        rw [List.append_eq_nil] at h
        rw [h.1] at hm
        cases hm
      cases hm2 : minD (l ++ e) with
      | none => exact absurd (minD_eq_none.mp hm2) hne
      | some m2 =>
        cases hM2 : maxD (l ++ e) with
        | none => exact absurd (maxD_eq_none.mp hM2) hne
        | some M2 =>
          have h1 : m2 ≤ m :=
            minD_le hm2 m (List.mem_append_left e (minD_mem hm))
          have h2 : M ≤ M2 :=
            maxD_ge hM2 M (List.mem_append_left e (maxD_mem hM))
          rw [yearsOfData_eq_div, yearsOfData_eq_div]
          have hnum : ((M - m : ℤ) : ℚ) ≤ ((M2 - m2 : ℤ) : ℚ) := by
            exact_mod_cast sub_le_sub h2 h1
          gcongr

theorem primaryDates_cons (kv : Key × BarVal) (s : Store) (tk : String) :
    primaryDates (kv :: s) tk =
      (if kv.1.ticker = tk ∧ kv.1.rowIndex = 0 then [kv.1.date] else [])
        ++ primaryDates s tk := by
  by_cases h : kv.1.ticker = tk ∧ kv.1.rowIndex = 0 <;>
    simp [primaryDates, List.filter_cons, h]

theorem primaryDates_upsertRow (s : Store) (r : Row) (tk : String) :
    ∃ e, primaryDates (upsertRow s r) tk = primaryDates s tk ++ e := by
  induction s with
  | nil =>
    refine ⟨primaryDates (upsertRow [] r) tk, ?_⟩
    simp [primaryDates]
  | cons kv rest ih =>
    by_cases h1 : kv.1 = rowKey r
    · refine ⟨[], ?_⟩
      rw [upsertRow, if_pos h1, List.append_nil, primaryDates_cons, primaryDates_cons, h1]
    · obtain ⟨e, he⟩ := ih
      refine ⟨e, ?_⟩
      rw [upsertRow, if_neg h1, primaryDates_cons, primaryDates_cons, he,
        List.append_assoc]

theorem keys_upsertRow_ext (s : Store) (r : Row) :
    ∃ e, keys (upsertRow s r) = keys s ++ e := by
  rw [keys_upsertRow]
  by_cases h : containsKey s (rowKey r) = true
  · exact ⟨[], by rw [if_pos h, List.append_nil]⟩
  · exact ⟨[rowKey r], by rw [if_neg h]⟩

theorem primaryDates_upsertList (rows : List Row) (s : Store) (tk : String) :
    ∃ e, primaryDates (upsertList s rows) tk = primaryDates s tk ++ e := by
  induction rows generalizing s with
  | nil => exact ⟨[], by simp [upsertList]⟩
  | cons r rest ih =>
    obtain ⟨e1, he1⟩ := primaryDates_upsertRow s r tk
    obtain ⟨e2, he2⟩ := ih (upsertRow s r)
    refine ⟨e1 ++ e2, ?_⟩
    show primaryDates (upsertList (upsertRow s r) rest) tk = _
    rw [he2, he1, List.append_assoc]

theorem keys_upsertList_ext (rows : List Row) (s : Store) :
    ∃ e, keys (upsertList s rows) = keys s ++ e := by
  induction rows generalizing s with
  | nil => exact ⟨[], by simp [upsertList]⟩
  | cons r rest ih =>
    obtain ⟨e1, he1⟩ := keys_upsertRow_ext s r
    obtain ⟨e2, he2⟩ := ih (upsertRow s r)
    refine ⟨e1 ++ e2, ?_⟩
    show keys (upsertList (upsertRow s r) rest) = _
    rw [he2, he1, List.append_assoc]

theorem primaryDates_storeOhlcv (s : Store) (rows : List Row) (tk : String) :
    ∃ e, primaryDates (storeOhlcv s rows).1 tk = primaryDates s tk ++ e := by
  by_cases h : rows = []
  · exact ⟨[], by rw [h]; simp [storeOhlcv]⟩
  · rw [storeOhlcv, if_neg h]
    exact primaryDates_upsertList rows s tk

theorem keys_storeOhlcv_ext (s : Store) (rows : List Row) :
    ∃ e, keys (storeOhlcv s rows).1 = keys s ++ e := by
  by_cases h : rows = []
  · exact ⟨[], by rw [h]; simp [storeOhlcv]⟩
  · rw [storeOhlcv, if_neg h]
    exact keys_upsertList_ext rows s

/-- The one-step unfolding of the cascade source loop. -/
theorem cascadeGo_cons (tk : String) (minY : ℚ) (skip : List String)
    (env : String → FetchResult) (name : String) (rest : List String)
    (s : Store) (tot : Nat) (prim : Option String) (used : List (String × Nat))
    (inv : List String) :
    cascadeGo tk minY skip env (name :: rest) s tot prim used inv =
      if name ∈ skip then cascadeGo tk minY skip env rest s tot prim used inv
      else if 0 < (dateRange s tk).2.2 ∧ minY ≤ yearsCov s tk then
        ⟨s, tot, prim, used, inv⟩
      else
        match env name with
        | .error _ => cascadeGo tk minY skip env rest s tot prim used (inv ++ [name])
        | .ok rows =>
          if rows = [] then
            cascadeGo tk minY skip env rest s tot prim used (inv ++ [name])
          else
            cascadeGo tk minY skip env rest (storeOhlcv s rows).1
              (tot + (storeOhlcv s rows).2)
              (match prim with | none => some name | some q => some q)
              (used ++ [(name, (storeOhlcv s rows).2)]) (inv ++ [name]) := rfl

theorem cascadeGo_store_ext (tk2 tk : String) (minY : ℚ) (skip : List String)
    (env : String → FetchResult) (srcs : List String) :
    ∀ s tot prim used inv,
      (∃ e, primaryDates (cascadeGo tk minY skip env srcs s tot prim used inv).store tk2
          = primaryDates s tk2 ++ e) ∧
      (∃ e, keys (cascadeGo tk minY skip env srcs s tot prim used inv).store
          = keys s ++ e) := by
  induction srcs with
  | nil =>
    intro s tot prim used inv
    exact ⟨⟨[], by simp [cascadeGo]⟩, ⟨[], by simp [cascadeGo]⟩⟩
  | cons name rest ih =>
    intro s tot prim used inv
    by_cases h1 : name ∈ skip
    · rw [show cascadeGo tk minY skip env (name :: rest) s tot prim used inv =
          cascadeGo tk minY skip env rest s tot prim used inv from by
        rw [cascadeGo_cons, if_pos h1]]
      exact ih s tot prim used inv
    · by_cases h2 : 0 < (dateRange s tk).2.2 ∧ minY ≤ yearsCov s tk
      · rw [show cascadeGo tk minY skip env (name :: rest) s tot prim used inv =
            ⟨s, tot, prim, used, inv⟩ from by
          rw [cascadeGo_cons, if_neg h1, if_pos h2]]
        exact ⟨⟨[], by simp⟩, ⟨[], by simp⟩⟩
      · cases henv : env name with
        | error err =>
          rw [show cascadeGo tk minY skip env (name :: rest) s tot prim used inv =
              cascadeGo tk minY skip env rest s tot prim used (inv ++ [name]) from by
            rw [cascadeGo_cons, if_neg h1, if_neg h2, henv]]
          exact ih s tot prim used (inv ++ [name])
        | ok rows =>
          cases rows with
          | nil =>
            rw [show cascadeGo tk minY skip env (name :: rest) s tot prim used inv =
                cascadeGo tk minY skip env rest s tot prim used (inv ++ [name]) from by
              rw [cascadeGo_cons, if_neg h1, if_neg h2, henv]; rfl]
            exact ih s tot prim used (inv ++ [name])
          | cons r rs =>
            rw [show cascadeGo tk minY skip env (name :: rest) s tot prim used inv =
                cascadeGo tk minY skip env rest (storeOhlcv s (r :: rs)).1
                  (tot + (storeOhlcv s (r :: rs)).2)
                  (match prim with | none => some name | some q => some q)
                  (used ++ [(name, (storeOhlcv s (r :: rs)).2)]) (inv ++ [name]) from by
              rw [cascadeGo_cons, if_neg h1, if_neg h2, henv]; rfl]
            obtain ⟨⟨e1, he1⟩, ⟨k1, hk1⟩⟩ := ih (storeOhlcv s (r :: rs)).1
              (tot + (storeOhlcv s (r :: rs)).2)
              (match prim with | none => some name | some q => some q)
              (used ++ [(name, (storeOhlcv s (r :: rs)).2)]) (inv ++ [name])
            obtain ⟨e0, he0⟩ := primaryDates_storeOhlcv s (r :: rs) tk2
            obtain ⟨k0, hk0⟩ := keys_storeOhlcv_ext s (r :: rs)
            exact ⟨⟨e0 ++ e1, by rw [he1, he0, List.append_assoc]⟩,
                   ⟨k0 ++ k1, by rw [hk1, hk0, List.append_assoc]⟩⟩

/-- Claim C5: a cascade run only ever inserts or replaces `ohlcv` rows —
for every instrument, the coverage in years computed from the store after
`cascade_download` is at least the coverage before, and no stored key is
ever deleted. -/
theorem c5_coverage_monotone (tk tk2 : String) (minY : ℚ) (skip : List String)
    (env : String → FetchResult) (s : Store) :
    yearsCov s tk2 ≤ yearsCov (cascadeDownload tk minY skip env s).store tk2 ∧
    (keys s).Sublist (keys (cascadeDownload tk minY skip env s).store) := by
  obtain ⟨⟨e, he⟩, ⟨k, hk⟩⟩ :=
    cascadeGo_store_ext tk2 tk minY skip env SOURCES s 0 none [] []
  constructor
  · show yearsOfData (dateRange s tk2).1 (dateRange s tk2).2.1 ≤ _
    simp only [yearsCov, dateRange, cascadeDownload] at *
    rw [he]
    exact years_mono _ e
  · show (keys s).Sublist (keys (cascadeGo tk minY skip env SOURCES s 0 none [] []).store)
    rw [hk]
    exact List.sublist_append_left _ _

theorem cascadeGo_invoked_spec (tk : String) (minY : ℚ) (skip : List String)
    (env : String → FetchResult) (srcs : List String) :
    ∀ s tot prim used inv,
      ∃ d : List String,
        (cascadeGo tk minY skip env srcs s tot prim used inv).invoked = inv ++ d ∧
        d.Sublist (srcs.filter fun n => decide (¬ n ∈ skip)) ∧
        (cascadeGo tk minY skip env srcs s tot prim used inv).primarySource =
          (match prim with
           | some q => some q
           | none => d.find? fun n => fetchNonempty (env n)) := by
  induction srcs with
  | nil =>
    intro s tot prim used inv
    refine ⟨[], by simp [cascadeGo], by simp, ?_⟩
    cases prim <;> simp [cascadeGo]
  | cons name rest ih =>
    intro s tot prim used inv
    by_cases h1 : name ∈ skip
    · rw [show cascadeGo tk minY skip env (name :: rest) s tot prim used inv =
          cascadeGo tk minY skip env rest s tot prim used inv from by
        rw [cascadeGo_cons, if_pos h1]]
      obtain ⟨d, hd1, hd2, hd3⟩ := ih s tot prim used inv
      refine ⟨d, hd1, ?_, hd3⟩
      rw [List.filter_cons_of_neg (by simpa using h1)]
      exact hd2
    · by_cases h2 : 0 < (dateRange s tk).2.2 ∧ minY ≤ yearsCov s tk
      · rw [show cascadeGo tk minY skip env (name :: rest) s tot prim used inv =
            ⟨s, tot, prim, used, inv⟩ from by
          rw [cascadeGo_cons, if_neg h1, if_pos h2]]
        refine ⟨[], by simp, by simp, ?_⟩
        cases prim <;> simp
      · cases henv : env name with
        | error err =>
          rw [show cascadeGo tk minY skip env (name :: rest) s tot prim used inv =
              cascadeGo tk minY skip env rest s tot prim used (inv ++ [name]) from by
            rw [cascadeGo_cons, if_neg h1, if_neg h2, henv]]
          obtain ⟨d, hd1, hd2, hd3⟩ := ih s tot prim used (inv ++ [name])
          refine ⟨name :: d, by rw [hd1, List.append_assoc]; rfl, ?_, ?_⟩
          · rw [List.filter_cons_of_pos (by simpa using h1)]
            exact List.Sublist.cons₂ name hd2
          · rw [hd3]
            cases prim with
            | some q => rfl
            | none =>
              show List.find? (fun n => fetchNonempty (env n)) d =
                List.find? (fun n => fetchNonempty (env n)) (name :: d)
              have hfalse : ¬ (fun n => fetchNonempty (env n)) name = true := by
                simp [henv, fetchNonempty]
              have hrw : List.find? (fun n => fetchNonempty (env n)) (name :: d) =
                  List.find? (fun n => fetchNonempty (env n)) d :=
                List.find?_cons_of_neg _ hfalse
              rw [hrw]
        | ok rows =>
          cases rows with
          | nil =>
            rw [show cascadeGo tk minY skip env (name :: rest) s tot prim used inv =
                cascadeGo tk minY skip env rest s tot prim used (inv ++ [name]) from by
              rw [cascadeGo_cons, if_neg h1, if_neg h2, henv]; rfl]
            obtain ⟨d, hd1, hd2, hd3⟩ := ih s tot prim used (inv ++ [name])
            refine ⟨name :: d, by rw [hd1, List.append_assoc]; rfl, ?_, ?_⟩
            · rw [List.filter_cons_of_pos (by simpa using h1)]
              exact List.Sublist.cons₂ name hd2
            · rw [hd3]
              cases prim with
              | some q => rfl
              | none =>
                show List.find? (fun n => fetchNonempty (env n)) d =
                  List.find? (fun n => fetchNonempty (env n)) (name :: d)
                have hfalse : ¬ (fun n => fetchNonempty (env n)) name = true := by
                  simp [henv, fetchNonempty]
                have hrw : List.find? (fun n => fetchNonempty (env n)) (name :: d) =
                    List.find? (fun n => fetchNonempty (env n)) d :=
                  List.find?_cons_of_neg _ hfalse
                rw [hrw]
          | cons r0 rs =>
            cases prim with
            | some q =>
              rw [show cascadeGo tk minY skip env (name :: rest) s tot (some q) used inv =
                  cascadeGo tk minY skip env rest (storeOhlcv s (r0 :: rs)).1
                    (tot + (storeOhlcv s (r0 :: rs)).2) (some q)
                    (used ++ [(name, (storeOhlcv s (r0 :: rs)).2)]) (inv ++ [name]) from by
                rw [cascadeGo_cons, if_neg h1, if_neg h2, henv]; rfl]
              obtain ⟨d, hd1, hd2, hd3⟩ := ih (storeOhlcv s (r0 :: rs)).1
                (tot + (storeOhlcv s (r0 :: rs)).2) (some q)
                (used ++ [(name, (storeOhlcv s (r0 :: rs)).2)]) (inv ++ [name])
              refine ⟨name :: d, by rw [hd1, List.append_assoc]; rfl, ?_, ?_⟩
              · rw [List.filter_cons_of_pos (by simpa using h1)]
                exact List.Sublist.cons₂ name hd2
              · rw [hd3]
            | none =>
              rw [show cascadeGo tk minY skip env (name :: rest) s tot none used inv =
                  cascadeGo tk minY skip env rest (storeOhlcv s (r0 :: rs)).1
                    (tot + (storeOhlcv s (r0 :: rs)).2) (some name)
                    (used ++ [(name, (storeOhlcv s (r0 :: rs)).2)]) (inv ++ [name]) from by
                rw [cascadeGo_cons, if_neg h1, if_neg h2, henv]; rfl]
              obtain ⟨d, hd1, hd2, hd3⟩ := ih (storeOhlcv s (r0 :: rs)).1
                (tot + (storeOhlcv s (r0 :: rs)).2) (some name)
                (used ++ [(name, (storeOhlcv s (r0 :: rs)).2)]) (inv ++ [name])
              refine ⟨name :: d, by rw [hd1, List.append_assoc]; rfl, ?_, ?_⟩
              · rw [List.filter_cons_of_pos (by simpa using h1)]
                exact List.Sublist.cons₂ name hd2
              · rw [hd3]
                show some name =
                  List.find? (fun n => fetchNonempty (env n)) (name :: d)
                have htrue : (fun n => fetchNonempty (env n)) name = true := by
                  simp [henv, fetchNonempty]
                have hrw : List.find? (fun n => fetchNonempty (env n)) (name :: d) =
                    some name :=
                  List.find?_cons_of_pos _ htrue
                rw [hrw]

/-- Claim C3: during a cascade run the sources actually invoked form a
subsequence of the fixed priority list `byma, iol, yahoo, analisistecnico`
restricted to the non-skipped sources (the order is never re-ranked), and
the recorded primary source is exactly the first invoked source whose
fetch returned a non-empty bar list — regardless of how many bars later
sources contribute. -/
theorem c3_fixed_priority_and_primary (tk : String) (minY : ℚ) (skip : List String)
    (env : String → FetchResult) (s : Store) :
    ((cascadeDownload tk minY skip env s).invoked).Sublist
      (SOURCES.filter fun n => decide (¬ n ∈ skip)) ∧
    (cascadeDownload tk minY skip env s).primarySource =
      (cascadeDownload tk minY skip env s).invoked.find? fun n =>
        fetchNonempty (env n) := by
  obtain ⟨d, hd1, hd2, hd3⟩ :=
    cascadeGo_invoked_spec tk minY skip env SOURCES s 0 none [] []
  have hinv : (cascadeDownload tk minY skip env s).invoked = d := by
    rw [show cascadeDownload tk minY skip env s =
        cascadeGo tk minY skip env SOURCES s 0 none [] [] from rfl, hd1]
    rfl
  constructor
  · rw [hinv]; exact hd2
  · rw [hinv]
    rw [show (cascadeDownload tk minY skip env s).primarySource =
        (cascadeGo tk minY skip env SOURCES s 0 none [] []).primarySource from rfl, hd3]

theorem processOne_force_empty (minY : ℚ) (skip : List String)
    (env : String → String → FetchResult) (st : DAState) (tk tty : String)
    (h : (dateRange (cascadeDownload tk minY skip (fun n => env n tk) st.store).store
      tk).2.2 = 0) :
    processOne minY true skip env st (tk, tty) =
      { store := (cascadeDownload tk minY skip (fun n => env n tk) st.store).store,
        tickers := st.tickers,
        audit := st.audit ++ [⟨tk, "empty", 0, 0, some "cascade"⟩],
        stats := { st.stats with empties := st.stats.empties + 1 },
        calls := st.calls ++
          (cascadeDownload tk minY skip (fun n => env n tk) st.store).invoked.map
            fun n => (tk, n) } := by
  simp only [processOne]
  rw [if_neg fun hcon => hcon.1 trivial]
  rw [if_pos h]

theorem processOne_force_ok (minY : ℚ) (skip : List String)
    (env : String → String → FetchResult) (st : DAState) (tk tty : String)
    (h : ¬ (dateRange (cascadeDownload tk minY skip (fun n => env n tk) st.store).store
      tk).2.2 = 0) :
    processOne minY true skip env st (tk, tty) =
      { store := (cascadeDownload tk minY skip (fun n => env n tk) st.store).store,
        tickers := markDownloaded st.tickers tk
          (dateRange (cascadeDownload tk minY skip (fun n => env n tk) st.store).store
            tk).2.2
          (cascadeDownload tk minY skip (fun n => env n tk) st.store).primarySource,
        audit := st.audit ++
          [⟨tk, "ok",
            (cascadeDownload tk minY skip (fun n => env n tk) st.store).totalStored,
            (dateRange (cascadeDownload tk minY skip (fun n => env n tk) st.store).store
              tk).2.2,
            some "cascade"⟩],
        stats :=
          if minY ≤
              yearsCov (cascadeDownload tk minY skip (fun n => env n tk) st.store).store
                tk then
            { st.stats with
              success := st.stats.success + 1,
              totalBars := st.stats.totalBars +
                (cascadeDownload tk minY skip (fun n => env n tk) st.store).totalStored }
          else
            { st.stats with
              belowTarget := st.stats.belowTarget + 1,
              totalBars := st.stats.totalBars +
                (cascadeDownload tk minY skip (fun n => env n tk) st.store).totalStored },
        calls := st.calls ++
          (cascadeDownload tk minY skip (fun n => env n tk) st.store).invoked.map
            fun n => (tk, n) } := by
  simp only [processOne]
  rw [if_neg fun hcon => hcon.1 trivial]
  rw [if_neg h]
  by_cases hy : minY ≤
      yearsCov (cascadeDownload tk minY skip (fun n => env n tk) st.store).store tk
  · rw [if_pos hy, if_pos hy]
  · rw [if_neg hy, if_neg hy]

theorem cascadeGo_allEmpty (tk : String) (minY : ℚ) (skip : List String)
    (env : String → FetchResult) (hempty : ∀ n, env n = Except.ok ([] : List Row))
    (srcs : List String) :
    ∀ s tot prim used inv,
      (cascadeGo tk minY skip env srcs s tot prim used inv).store = s ∧
      (cascadeGo tk minY skip env srcs s tot prim used inv).totalStored = tot ∧
      (cascadeGo tk minY skip env srcs s tot prim used inv).primarySource = prim := by
  induction srcs with
  | nil =>
    intro s tot prim used inv
    exact ⟨rfl, rfl, rfl⟩
  | cons name rest ih =>
    intro s tot prim used inv
    by_cases h1 : name ∈ skip
    · rw [show cascadeGo tk minY skip env (name :: rest) s tot prim used inv =
          cascadeGo tk minY skip env rest s tot prim used inv from by
        rw [cascadeGo_cons, if_pos h1]]
      exact ih s tot prim used inv
    · by_cases h2 : 0 < (dateRange s tk).2.2 ∧ minY ≤ yearsCov s tk
      · rw [show cascadeGo tk minY skip env (name :: rest) s tot prim used inv =
            ⟨s, tot, prim, used, inv⟩ from by
          rw [cascadeGo_cons, if_neg h1, if_pos h2]]
        exact ⟨rfl, rfl, rfl⟩
      · rw [show cascadeGo tk minY skip env (name :: rest) s tot prim used inv =
            cascadeGo tk minY skip env rest s tot prim used (inv ++ [name]) from by
          rw [cascadeGo_cons, if_neg h1, if_neg h2, hempty name]; rfl]
        exact ih s tot prim used (inv ++ [name])

theorem cascadeGo_error_blind (tk : String) (minY : ℚ) (skip : List String)
    (envA envA' : String → FetchResult)
    (h : ∀ n, envA' n =
      match envA n with | .error _ => .ok [] | .ok rows => .ok rows)
    (srcs : List String) :
    ∀ s tot prim used inv,
      cascadeGo tk minY skip envA srcs s tot prim used inv =
        cascadeGo tk minY skip envA' srcs s tot prim used inv := by
  induction srcs with
  | nil => intro s tot prim used inv; rfl
  | cons name rest ih =>
    intro s tot prim used inv
    by_cases h1 : name ∈ skip
    · rw [show cascadeGo tk minY skip envA (name :: rest) s tot prim used inv =
          cascadeGo tk minY skip envA rest s tot prim used inv from by
        rw [cascadeGo_cons, if_pos h1]]
      rw [show cascadeGo tk minY skip envA' (name :: rest) s tot prim used inv =
          cascadeGo tk minY skip envA' rest s tot prim used inv from by
        rw [cascadeGo_cons, if_pos h1]]
      exact ih s tot prim used inv
    · by_cases h2 : 0 < (dateRange s tk).2.2 ∧ minY ≤ yearsCov s tk
      · rw [show cascadeGo tk minY skip envA (name :: rest) s tot prim used inv =
            ⟨s, tot, prim, used, inv⟩ from by
          rw [cascadeGo_cons, if_neg h1, if_pos h2]]
        rw [show cascadeGo tk minY skip envA' (name :: rest) s tot prim used inv =
            ⟨s, tot, prim, used, inv⟩ from by
          rw [cascadeGo_cons, if_neg h1, if_pos h2]]
      · cases henv : envA name with
        | error err =>
          have henv' : envA' name = .ok [] := by rw [h name, henv]
          rw [show cascadeGo tk minY skip envA (name :: rest) s tot prim used inv =
              cascadeGo tk minY skip envA rest s tot prim used (inv ++ [name]) from by
            rw [cascadeGo_cons, if_neg h1, if_neg h2, henv]]
          rw [show cascadeGo tk minY skip envA' (name :: rest) s tot prim used inv =
              cascadeGo tk minY skip envA' rest s tot prim used (inv ++ [name]) from by
            rw [cascadeGo_cons, if_neg h1, if_neg h2, henv']; rfl]
          exact ih s tot prim used (inv ++ [name])
        | ok rows =>
          have henv' : envA' name = .ok rows := by rw [h name, henv]
          cases rows with
          | nil =>
            rw [show cascadeGo tk minY skip envA (name :: rest) s tot prim used inv =
                cascadeGo tk minY skip envA rest s tot prim used (inv ++ [name]) from by
              rw [cascadeGo_cons, if_neg h1, if_neg h2, henv]; rfl]
            rw [show cascadeGo tk minY skip envA' (name :: rest) s tot prim used inv =
                cascadeGo tk minY skip envA' rest s tot prim used (inv ++ [name]) from by
              rw [cascadeGo_cons, if_neg h1, if_neg h2, henv']; rfl]
            exact ih s tot prim used (inv ++ [name])
          | cons r0 rs =>
            rw [show cascadeGo tk minY skip envA (name :: rest) s tot prim used inv =
                cascadeGo tk minY skip envA rest (storeOhlcv s (r0 :: rs)).1
                  (tot + (storeOhlcv s (r0 :: rs)).2)
                  (match prim with | none => some name | some q => some q)
                  (used ++ [(name, (storeOhlcv s (r0 :: rs)).2)]) (inv ++ [name]) from by
              rw [cascadeGo_cons, if_neg h1, if_neg h2, henv]; rfl]
            rw [show cascadeGo tk minY skip envA' (name :: rest) s tot prim used inv =
                cascadeGo tk minY skip envA' rest (storeOhlcv s (r0 :: rs)).1
                  (tot + (storeOhlcv s (r0 :: rs)).2)
                  (match prim with | none => some name | some q => some q)
                  (used ++ [(name, (storeOhlcv s (r0 :: rs)).2)]) (inv ++ [name]) from by
              rw [cascadeGo_cons, if_neg h1, if_neg h2, henv']; rfl]
            exact ih (storeOhlcv s (r0 :: rs)).1 (tot + (storeOhlcv s (r0 :: rs)).2)
              (match prim with | none => some name | some q => some q)
              (used ++ [(name, (storeOhlcv s (r0 :: rs)).2)]) (inv ++ [name])

theorem processedCount_processOne (minY : ℚ) (force : Bool) (skip : List String)
    (env : String → String → FetchResult) (st : DAState) (tt : String × String) :
    processedCount (processOne minY force skip env st tt) = processedCount st + 1 := by
  simp only [processOne]
  split_ifs <;> simp [processedCount] <;> omega

theorem processedCount_downloadAll (minY : ℚ) (force : Bool) (skip : List String)
    (env : String → String → FetchResult) (tks : List (String × String)) (st : DAState) :
    processedCount (downloadAll minY force skip env tks st) =
      processedCount st + tks.length := by
  induction tks generalizing st with
  | nil => simp [downloadAll]
  | cons t rest ih =>
    show processedCount
      (downloadAll minY force skip env rest (processOne minY force skip env st t)) = _
    rw [ih, processedCount_processOne]
    simp [List.length_cons]
    omega

/-- Counterexample to C1 as stated: with a minimum-years target of 0 and an
instrument with no stored bars, the stored coverage (0 years) already
meets the target and force is not set, yet the run does make network
calls — the source's early exit additionally requires at least one stored
bar (`existing_count > 0`). -/
theorem c1_counterexample :
    (0 : ℚ) ≤ yearsCov ([] : Store) "GGAL" ∧
    (processOne 0 false [] envEmpty st0 ("GGAL", "STOCK")).calls ≠ [] := by
  constructor
  · decide
  · decide

/-- Claim C1 (amended): an instrument that already has at least one stored
primary-index bar and coverage at or above the target is, when force is
not set, skipped untouched: no network call is made, no bars are stored,
every table is left unchanged (only the skipped counter advances), and the
coverage classification of its stored state is `SUFFICIENT`. -/
theorem c1_early_exit (minY : ℚ) (skip : List String)
    (env : String → String → FetchResult) (st : DAState) (tk tty : String)
    (hcount : 0 < (dateRange st.store tk).2.2)
    (hcov : minY ≤ yearsCov st.store tk) :
    processOne minY false skip env st (tk, tty) =
      { st with stats := { st.stats with skipped := st.stats.skipped + 1 } } ∧
    classify (dateRange st.store tk).2.2 (yearsCov st.store tk) minY = .sufficient := by
  constructor
  · simp only [processOne]
    rw [if_pos ⟨by simp, hcount, hcov⟩]
  · rw [classify, if_neg (Nat.pos_iff_ne_zero.mp hcount), if_pos hcov]

/-- Witness for C1 at a concrete state: one stored bar, target 0. -/
theorem c1_witness :
    (0 < (dateRange stA.store "A").2.2 ∧ (0 : ℚ) ≤ yearsCov stA.store "A") ∧
    processOne 0 false [] envEmpty stA ("A", "STOCK") =
      { stA with stats := { stA.stats with skipped := stA.stats.skipped + 1 } } ∧
    classify (dateRange stA.store "A").2.2 (yearsCov stA.store "A") 0 = .sufficient :=
  ⟨⟨by decide, by decide⟩,
   (c1_early_exit 0 [] envEmpty stA "A" "STOCK" (by decide) (by decide)).1,
   (c1_early_exit 0 [] envEmpty stA "A" "STOCK" (by decide) (by decide)).2⟩

/-- Counterexample to C7 as stated: a completed cascade run that ends with
no stored bars is classified EMPTY and appends exactly one audit entry,
but the instrument's metadata is NOT updated — `mark_downloaded` is only
called when some data exists, so the registered `"GGAL"` row keeps
`downloaded_at` unset and `bars_count = 0`. -/
theorem c7_counterexample :
    (processOne 5 true [] envEmpty stGGAL ("GGAL", "STOCK")).audit =
      [⟨"GGAL", "empty", 0, 0, some "cascade"⟩] ∧
    (processOne 5 true [] envEmpty stGGAL ("GGAL", "STOCK")).stats.empties = 1 ∧
    (processOne 5 true [] envEmpty stGGAL ("GGAL", "STOCK")).tickers = [rowGGAL] ∧
    rowGGAL.downloadedAt = false ∧ rowGGAL.barsCount = 0 := by
  refine ⟨by decide, by decide, by decide, by decide, by decide⟩

/-- Claim C7 (amended): after every completed per-instrument cascade run,
final coverage is recomputed from the store and the outcome is classified
`SUFFICIENT`/`PARTIAL`/`EMPTY`; exactly one audit entry summarizing the
run is appended in every outcome class, while the instrument metadata is
updated only in the `SUFFICIENT` and `PARTIAL` classes — an `EMPTY` run
leaves the `tickers` row untouched. -/
theorem c7_outcome_classification (minY : ℚ) (skip : List String)
    (env : String → String → FetchResult) (st : DAState) (tk tty : String) :
    let r := cascadeDownload tk minY skip (fun n => env n tk) st.store
    let fc := (dateRange r.store tk).2.2
    let fy := yearsCov r.store tk
    let st' := processOne minY true skip env st (tk, tty)
    st'.audit = st.audit ++
      [⟨tk, if fc = 0 then "empty" else "ok",
        if fc = 0 then 0 else r.totalStored,
        if fc = 0 then 0 else fc, some "cascade"⟩] ∧
    st'.tickers =
      (if fc = 0 then st.tickers else markDownloaded st.tickers tk fc r.primarySource) ∧
    st'.store = r.store ∧
    st'.stats.empties =
      st.stats.empties + (if classify fc fy minY = .empty then 1 else 0) ∧
    st'.stats.success =
      st.stats.success + (if classify fc fy minY = .sufficient then 1 else 0) ∧
    st'.stats.belowTarget =
      st.stats.belowTarget + (if classify fc fy minY = .belowTarget then 1 else 0) := by
  intro r fc fy st'
  by_cases hfc : fc = 0
  · have he := processOne_force_empty minY skip env st tk tty hfc
    rw [show st' = processOne minY true skip env st (tk, tty) from rfl, he]
    simp [classify, hfc]
  · have he := processOne_force_ok minY skip env st tk tty hfc
    rw [show st' = processOne minY true skip env st (tk, tty) from rfl, he]
    by_cases hy : minY ≤ fy
    · simp [classify, hfc, hy]
    · simp [classify, hfc, hy]

/-- Counterexample to C8 as stated: an instrument holding one prior bar
(coverage below target) whose sources now all yield no data is recorded
with status `"ok"` in the below-target bucket, not EMPTY — EMPTY is only
recorded when the store ends the run with no bars at all. -/
theorem c8_counterexample :
    (processOne 5 true [] envEmpty stA ("A", "STOCK")).calls ≠ [] ∧
    (processOne 5 true [] envEmpty stA ("A", "STOCK")).stats.empties = 0 ∧
    (processOne 5 true [] envEmpty stA ("A", "STOCK")).stats.belowTarget = 1 ∧
    (processOne 5 true [] envEmpty stA ("A", "STOCK")).audit =
      [⟨"A", "ok", 0, 1, some "cascade"⟩] := by
  refine ⟨by decide, by decide, by decide, by decide⟩

/-- Claim C8 (amended): a source that raises behaves exactly like a source
returning no data — the cascade's entire result is unchanged, so no
single source's failure ever aborts the per-instrument cascade; every
ticker handed to `download_all` lands in exactly one outcome bucket
(processing always continues to the next instrument); and an instrument
ending the run with no stored bars at all is recorded with EMPTY status
and one `"empty"` audit entry. -/
theorem c8_failure_is_local (tk tty : String) (minY : ℚ) (skip : List String)
    (s : Store) (envA envA' : String → FetchResult)
    (hA : ∀ n, envA' n =
      match envA n with | .error _ => .ok [] | .ok rows => .ok rows)
    (force : Bool) (envC : String → String → FetchResult)
    (tks : List (String × String)) (stC : DAState)
    (envB : String → String → FetchResult) (stB : DAState)
    (hB : ∀ n, envB n tk = Except.ok ([] : List Row))
    (hB0 : (dateRange stB.store tk).2.2 = 0) :
    cascadeDownload tk minY skip envA s = cascadeDownload tk minY skip envA' s ∧
    processedCount (downloadAll minY force skip envC tks stC) =
      processedCount stC + tks.length ∧
    (processOne minY true skip envB stB (tk, tty)).stats.empties =
      stB.stats.empties + 1 ∧
    (processOne minY true skip envB stB (tk, tty)).audit =
      stB.audit ++ [⟨tk, "empty", 0, 0, some "cascade"⟩] := by
  have hstore : (cascadeDownload tk minY skip (fun n => envB n tk) stB.store).store =
      stB.store :=
    (cascadeGo_allEmpty tk minY skip (fun n => envB n tk) (fun n => hB n) SOURCES
      stB.store 0 none [] []).1
  have hfc : (dateRange (cascadeDownload tk minY skip (fun n => envB n tk)
      stB.store).store tk).2.2 = 0 := by
    rw [hstore]; exact hB0
  have he := processOne_force_empty minY skip envB stB tk tty hfc
  refine ⟨?_, ?_, ?_, ?_⟩
  · exact cascadeGo_error_blind tk minY skip envA envA' hA SOURCES s 0 none [] []
  · exact processedCount_downloadAll minY force skip envC tks stC
  · rw [he]
  · rw [he]

/-- Witness for C8 at concrete inputs: an all-raising environment gives the
same cascade result as an all-empty one, one processed ticker fills one
bucket, and a bar-less instrument is recorded EMPTY. -/
theorem c8_witness :
    cascadeDownload "A" 5 [] envErrA [] = cascadeDownload "A" 5 [] envOkA [] ∧
    processedCount (downloadAll 5 true [] envEmpty [("A", "STOCK")] st0) =
      processedCount st0 + 1 ∧
    (processOne 5 true [] envEmpty st0 ("A", "STOCK")).stats.empties =
      st0.stats.empties + 1 ∧
    (processOne 5 true [] envEmpty st0 ("A", "STOCK")).audit =
      st0.audit ++ [⟨"A", "empty", 0, 0, some "cascade"⟩] :=
  ⟨(c8_failure_is_local "A" "STOCK" 5 [] [] envErrA envOkA (fun n => rfl) true
      envEmpty [("A", "STOCK")] st0 envEmpty st0 (fun n => rfl) (by decide)).1,
   (c8_failure_is_local "A" "STOCK" 5 [] [] envErrA envOkA (fun n => rfl) true
      envEmpty [("A", "STOCK")] st0 envEmpty st0 (fun n => rfl) (by decide)).2.1,
   (c8_failure_is_local "A" "STOCK" 5 [] [] envErrA envOkA (fun n => rfl) true
      envEmpty [("A", "STOCK")] st0 envEmpty st0 (fun n => rfl) (by decide)).2.2.1,
   (c8_failure_is_local "A" "STOCK" 5 [] [] envErrA envOkA (fun n => rfl) true
      envEmpty [("A", "STOCK")] st0 envEmpty st0 (fun n => rfl) (by decide)).2.2.2⟩

/-- One-step unfolding of the `_http_get` retry loop. -/
theorem httpGetAux_succ (env : Nat → AttemptOutcome) (fuel attempt : Nat)
    (lastError : Option LastError) (sleeps : List Nat) :
    httpGetAux env (fuel + 1) attempt lastError sleeps =
      match env attempt with
      | .success b => ⟨.ok (some b), attempt + 1, sleeps⟩
      | .httpError code =>
        if code = 400 ∨ code = 404 then ⟨.ok none, attempt + 1, sleeps⟩
        else
          httpGetAux env fuel (attempt + 1) (some (.httpError code))
            (if attempt < MAX_RETRIES - 1 then sleeps ++ [RETRY_BACKOFF.getD attempt 0]
             else sleeps)
      | .netError =>
        httpGetAux env fuel (attempt + 1) (some .netError)
          (if attempt < MAX_RETRIES - 1 then sleeps ++ [RETRY_BACKOFF.getD attempt 0]
           else sleeps) := rfl

/-- A first attempt answered with HTTP 400 or 404 makes `_http_get` return
`None` after exactly one attempt and no backoff sleep. -/
theorem httpGet_400_404 (env : Nat → AttemptOutcome) (c : Nat)
    (h0 : env 0 = .httpError c) (hc : c = 400 ∨ c = 404) :
    httpGet env = ⟨.ok none, 1, []⟩ := by
  have h3 : httpGet env = httpGetAux env (2 + 1) 0 none [] := rfl
  rw [h3, httpGetAux_succ, h0]
  rcases hc with hc | hc <;> subst hc <;> simp

/-- Counterexample to C2 as stated: HTTP 403 is a 4xx status that is not
the 429 rate-limit signal, yet the retry layer makes all three attempts
against it, sleeping the 3s and 10s backoffs, and finally re-raises — only
400 and 404 are treated as permanent. -/
theorem c2_counterexample :
    ¬ ((403 : Nat) = 400 ∨ (403 : Nat) = 404) ∧ ¬ (403 : Nat) = 429 ∧
    (httpGet env403).attempts = 3 ∧
    (httpGet env403).sleeps = [3, 10] ∧
    (httpGet env403).outcome = .error (.httpError 403) := by
  refine ⟨by decide, by decide, by decide, by decide, rfl⟩

/-- Claim C2 (amended): the statuses the retry layer treats as permanent are
exactly HTTP 400 and 404; a fetch whose first attempt fails with one of
those gets exactly one call attempt and no backoff sleep. -/
theorem c2_permanent_no_retry (env : Nat → AttemptOutcome) (c : Nat)
    (h0 : env 0 = .httpError c) (hc : c = 400 ∨ c = 404) :
    httpGet env = ⟨.ok none, 1, []⟩ :=
  httpGet_400_404 env c h0 hc

/-- Witness for C2: a 404 on the first attempt. -/
theorem c2_witness :
    (env404 0 = .httpError 404 ∧ ((404 : Nat) = 400 ∨ (404 : Nat) = 404)) ∧
    httpGet env404 = ⟨.ok none, 1, []⟩ :=
  ⟨⟨rfl, Or.inr rfl⟩, c2_permanent_no_retry env404 404 rfl (Or.inr rfl)⟩

/-- Claim C10: an HTTP 400 or 404 response makes the HTTP helper return no
data instead of raising, so `fetch_byma` and `fetch_analisistecnico`
return an empty bar list — exactly the same output those adapters produce
for a well-formed "no data" response, so at the cascade level a permanent
failure is indistinguishable from a legitimately empty symbol. -/
theorem c10_permanent_is_empty (tk : String) (c : Nat)
    (env : Nat → AttemptOutcome) (d : ChartResponse)
    (h0 : env 0 = .httpError c) (hc : c = 400 ∨ c = 404) (hd : ¬ d.s = "ok") :
    (httpGet env).outcome = .ok none ∧
    fetchByma tk env = .ok [] ∧
    fetchAnalisistecnico tk env = .ok [] ∧
    fetchByma tk (fun _ => .success (.chart d)) = .ok [] ∧
    fetchByma tk env = fetchByma tk (fun _ => .success (.chart d)) ∧
    fetchAnalisistecnico tk env =
      fetchAnalisistecnico tk (fun _ => .success (.chart d)) := by
  have ht := httpGet_400_404 env c h0 hc
  have h1 : (httpGet env).outcome = .ok none := by rw [ht]
  have h2 : fetchByma tk env = .ok [] := by
    rw [fetchByma, h1]
  have h3 : fetchAnalisistecnico tk env = .ok [] := by
    rw [fetchAnalisistecnico, h1]
  have hout : (httpGet fun _ => AttemptOutcome.success (ByteData.chart d)).outcome =
      Except.ok (some (ByteData.chart d)) := rfl
  have h4 : fetchByma tk (fun _ => .success (.chart d)) = .ok [] := by
    rw [fetchByma, hout]
    simp [hd]
  have h5 : fetchAnalisistecnico tk (fun _ => .success (.chart d)) = .ok [] := by
    rw [fetchAnalisistecnico, hout]
    simp [hd]
  exact ⟨h1, h2, h3, h4, by rw [h2, h4], by rw [h3, h5]⟩

/-- Witness for C10: a 404 answer and a "no data" chart payload. -/
theorem c10_witness :
    (env404 0 = .httpError 404 ∧ ((404 : Nat) = 400 ∨ (404 : Nat) = 404) ∧
      ¬ noDataChart.s = "ok") ∧
    fetchByma "GGAL" env404 = .ok [] ∧
    fetchByma "GGAL" env404 =
      fetchByma "GGAL" (fun _ => .success (.chart noDataChart)) :=
  ⟨⟨rfl, Or.inr rfl, by decide⟩,
   (c10_permanent_is_empty "GGAL" 404 env404 noDataChart rfl (Or.inr rfl)
     (by decide)).2.1,
   (c10_permanent_is_empty "GGAL" 404 env404 noDataChart rfl (Or.inr rfl)
     (by decide)).2.2.2.2.1⟩

theorem atRowsGo_length (tk : String) (d : ChartResponse) :
    ∀ (idxs : List Nat) (cnt : Int → Nat),
      (atRowsGo tk d cnt idxs).length = idxs.length := by
  intro idxs
  induction idxs with
  | nil => intro cnt; rfl
  | cons i irest ih =>
    intro cnt
    show (atRowsGo tk d cnt (i :: irest)).length = irest.length + 1
    rw [atRowsGo]
    simp only [List.length_cons]
    rw [ih]

theorem yahooRows_nonnull (tk : String) (r : YahooResult) :
    (yahooRows tk r).all rowNonNull = true := by
  rw [List.all_eq_true]
  intro row hrow
  simp only [yahooRows, List.mem_filterMap] at hrow
  obtain ⟨i, _, heq⟩ := hrow
  by_cases hnull : r.quote.open_.getD i none = none ∨ r.quote.high.getD i none = none ∨
      r.quote.low.getD i none = none ∨ r.quote.close.getD i none = none
  · rw [if_pos hnull] at heq
    exact Option.noConfusion heq
  · rw [if_neg hnull] at heq
    push_neg at hnull
    obtain hrow2 := Option.some.inj heq
    rw [← hrow2]
    simp only [rowNonNull, Bool.and_eq_true, Option.isSome_iff_ne_none]
    exact ⟨⟨⟨hnull.1, hnull.2.1⟩, hnull.2.2.1⟩, hnull.2.2.2⟩

theorem yahooFromBytes_nonnull (tk : String) (b : Except LastError (Option ByteData)) :
    (okRows (yahooFromBytes tk b)).all rowNonNull = true := by
  rcases b with e | ob
  · rfl
  · rcases ob with _ | bd
    · rfl
    · rcases bd with _ | _ | dd | dd
      · rfl
      · rfl
      · rfl
      · by_cases herr : dd.err = true
        · simp [yahooFromBytes, herr, okRows]
        · rcases hres : dd.result with _ | ⟨r0, rs⟩
          · simp [yahooFromBytes, herr, hres, okRows]
          · by_cases hts : r0.timestamp = []
            · simp [yahooFromBytes, herr, hres, hts, okRows]
            · simp only [yahooFromBytes, herr, hres, hts]
              simp only [Bool.false_eq_true, if_false, if_neg hts]
              exact yahooRows_nonnull tk r0

/-- Counterexample to C9 as stated: a ByMA chart payload reporting a null
open for a day with status ok is NOT filtered — `fetch_byma` hands the
store-bound row list a bar whose open is null. -/
theorem c9_counterexample :
    okRows (fetchByma "GGAL" nullOpenEnv) =
      [⟨"GGAL", 1, 86400, none, some 1, some 1, some 1, 0, 0, "byma"⟩] ∧
    (okRows (fetchByma "GGAL" nullOpenEnv)).all rowNonNull = false := by
  refine ⟨by decide, by decide⟩

/-- Claim C9 (amended): only the yahoo adapter filters out days whose
provider-reported open/high/low/close is null — every bar it passes on has
non-null OHLC; the byma and analisistecnico adapters build one row per
reported timestamp, forwarding null OHLC entries unfiltered. -/
theorem c9_only_yahoo_filters (tk : String) (d : ChartResponse)
    (env env2 : Nat → AttemptOutcome) :
    (bymaRows tk d).length = d.t.length ∧
    (atRows tk d).length = d.t.length ∧
    (okRows (fetchYahoo tk env env2)).all rowNonNull = true := by
  refine ⟨by simp [bymaRows], ?_, ?_⟩
  · rw [atRows, atRowsGo_length, List.length_range]
  · exact yahooFromBytes_nonnull tk _

theorem classifyRow_eq (old : TickerRow) (r : IncomingRec) :
    classifyRow (some old) r =
      if old.enabled = true ∧ r.enabled = false then .disabled
      else if changesList old r = [] then .unchanged
      else .updated (changesList old r) := by
  simp only [classifyRow, changesList, List.append_assoc]

theorem changesList_eq_nil (old : TickerRow) (r : IncomingRec) :
    changesList old r = [] ↔
      (old.name = r.name ∧ old.tradingType = r.tradingType ∧
       old.enabled = r.enabled ∧ old.description = r.description) := by
  rw [changesList]
  by_cases h1 : old.name = r.name <;>
    by_cases h2 : old.tradingType = r.tradingType <;>
      by_cases h3 : old.enabled = r.enabled <;>
        by_cases h4 : old.description = r.description <;>
          simp [h1, h2, h3, h4]

theorem mem_changesList (old : TickerRow) (r : IncomingRec) :
    ("name" ∈ changesList old r ↔ ¬ old.name = r.name) ∧
    ("trading_type" ∈ changesList old r ↔ ¬ old.tradingType = r.tradingType) ∧
    ("enabled" ∈ changesList old r ↔ ¬ old.enabled = r.enabled) ∧
    ("description" ∈ changesList old r ↔ ¬ old.description = r.description) := by
  rw [changesList]
  by_cases h1 : old.name = r.name <;>
    by_cases h2 : old.tradingType = r.tradingType <;>
      by_cases h3 : old.enabled = r.enabled <;>
        by_cases h4 : old.description = r.description <;>
          simp [h1, h2, h3, h4]

theorem upsertTicker_cons_ne (row : TickerRow) (rest : TickerDb) (rid : Nat)
    (r : IncomingRec) (h : ¬ row.ticker = r.ticker) :
    upsertTicker (row :: rest) rid r = row :: upsertTicker rest rid r := by
  by_cases h2 : (rest.any fun rw2 => decide (rw2.ticker = r.ticker)) = true
  · rw [upsertTicker, if_pos (by simp [List.any_cons, h2])]
    rw [upsertTicker, if_pos h2]
    simp [h]
  · rw [upsertTicker, if_neg (by simp [List.any_cons, h, h2])]
    rw [upsertTicker, if_neg h2]
    simp

theorem lookupTicker_upsertTicker (db : TickerDb) (rid : Nat) (r : IncomingRec) :
    (lookupTicker (upsertTicker db rid r) r.ticker).map (fun row => row.enabled) =
      some r.enabled := by
  induction db with
  | nil =>
    simp [upsertTicker, lookupTicker, List.find?, freshTickerRow]
  | cons row rest ih =>
    by_cases hrt : row.ticker = r.ticker
    · rw [upsertTicker, if_pos (by simp [List.any_cons, hrt])]
      simp [lookupTicker, List.find?, applyCsvUpdate, hrt]
    · rw [upsertTicker_cons_ne row rest rid r hrt]
      rw [lookupTicker, List.find?_cons_of_neg _ (by simp [hrt])]
      exact ih

/-- Counterexample to C6 as stated: an incoming record that both renames
the instrument and flips enabled from true to false is classified DISABLED
even though the enabled flip is not the only change — the source checks
only `old enabled and not new enabled`, discarding the collected diff. -/
theorem c6_counterexample :
    classifyRow (some oldGGAL) recGGAL = .disabled ∧
    ¬ oldGGAL.name = recGGAL.name ∧
    oldGGAL.enabled = true ∧ recGGAL.enabled = false := by
  refine ⟨by decide, by decide, by decide, by decide⟩

/-- Claim C6 (amended): an existing record is classified DISABLED exactly
when its enabled flag goes from true to false, regardless of other
simultaneous field changes, which are then not reported; otherwise it is
UPDATED listing exactly the names of the differing fields among name,
trading_type (category), enabled and description, or UNCHANGED when none
differ; and the persisted row always takes the incoming enabled flag. -/
theorem c6_disabled_short_circuit (old : TickerRow) (r : IncomingRec)
    (db : TickerDb) (rid : Nat) :
    (classifyRow (some old) r = .disabled ↔
      (old.enabled = true ∧ r.enabled = false)) ∧
    (classifyRow (some old) r = .unchanged ↔
      (old.name = r.name ∧ old.tradingType = r.tradingType ∧
       old.enabled = r.enabled ∧ old.description = r.description)) ∧
    reportedChanges (classifyRow (some old) r) =
      (if old.enabled = true ∧ r.enabled = false then [] else changesList old r) ∧
    ("name" ∈ changesList old r ↔ ¬ old.name = r.name) ∧
    ("trading_type" ∈ changesList old r ↔ ¬ old.tradingType = r.tradingType) ∧
    ("enabled" ∈ changesList old r ↔ ¬ old.enabled = r.enabled) ∧
    ("description" ∈ changesList old r ↔ ¬ old.description = r.description) ∧
    (lookupTicker (upsertTicker db rid r) r.ticker).map (fun row => row.enabled) =
      some r.enabled := by
  obtain ⟨m1, m2, m3, m4⟩ := mem_changesList old r
  refine ⟨?_, ?_, ?_, m1, m2, m3, m4, lookupTicker_upsertTicker db rid r⟩
  · rw [classifyRow_eq]
    by_cases hd : old.enabled = true ∧ r.enabled = false
    · simp [hd]
    · rw [if_neg hd]
      by_cases hc : changesList old r = []
      · simp [hc, hd]
      · simp [hc, hd]
  · rw [classifyRow_eq, ← changesList_eq_nil]
    by_cases hd : old.enabled = true ∧ r.enabled = false
    · rw [if_pos hd]
      constructor
      · intro h; exact absurd h (by simp)
      · intro hnil
        have h4 := (changesList_eq_nil old r).mp hnil
        rw [hd.1, hd.2] at h4
        exact absurd h4.2.2.1 (by simp)
    · rw [if_neg hd]
      by_cases hc : changesList old r = []
      · simp [hc]
      · simp [hc]
  · rw [classifyRow_eq]
    by_cases hd : old.enabled = true ∧ r.enabled = false
    · rw [if_pos hd, if_pos hd]
      rfl
    · rw [if_neg hd, if_neg hd]
      by_cases hc : changesList old r = []
      · rw [if_pos hc, hc]
        rfl
      · rw [if_neg hc]
        rfl
